import Mathlib

/-!
# VirtualLppApp: the display side of the step sequencer

A shallow embedding of `src/tools/VirtualLpp/src/VirtualLppApp.cpp`:
the lock discipline of the application entry points, the window layout
computed by `resize`, the status line of `drawBottomPanel` (scale intervals,
BPM, swing) and the step colours of `drawSequenceNotes`.

The `int` computations of `resize` and of the swing display are 32-bit
(two's complement wrap-around), and the values they hand to `ImVec2` and to
`ImGui::Text` are single-precision: each conversion, product and quotient is
rounded to 24 significant bits, ties to even.  Rational numbers carry the
exact value of every `float`.  The BPM conversion, which `VirtualLppApp.cpp`
only calls, is the quotient given by the specification.
-/

namespace VirtualLppApp

/-! ## Data model (fields read by the display code) -/

/-- The scale table: `lp_scale.num_notes` and `lp_scale.offsets[]`. -/
structure Scale where
  num_notes : Nat
  offsets : List Int
deriving Repr, DecidableEq

/-- The array read `lp_scale.offsets[i]`. -/
def Scale.offset (s : Scale) (i : Nat) : Int := s.offsets.getD i 0

/-- The major scale of the specification scenario. -/
def majorScale : Scale := { num_notes := 7, offsets := [0, 2, 4, 5, 7, 9, 11] }

/-- The counted loop `for (int i = lo; i < lo + count; i++) st = body st i`. -/
def forLoop {σ : Type} (body : σ → Nat → σ) : Nat → Nat → σ → σ
  | 0, _, st => st
  | count + 1, i, st => forLoop body count (i + 1) (body st i)

/-! ## drawBottomPanel: the scale interval text -/

/-- Local state of the interval loop of `drawBottomPanel`: the text built so
far, the integers handed to `to_string` so far (in order), and `lastOffset`. -/
structure StepsState where
  scaleSteps : String
  listed : List Int
  lastOffset : Int
deriving Repr, DecidableEq

/-- The initial state `string scaleSteps = ""; int lastOffset = 0;`. -/
def stepsInit : StepsState := { scaleSteps := "", listed := [], lastOffset := 0 }

/-- One appended number: `scaleSteps += to_string(v)`. -/
def StepsState.push (st : StepsState) (v : Int) : StepsState :=
  { st with scaleSteps := st.scaleSteps ++ toString v, listed := st.listed ++ [v] }

/-- Body of `for (int i = 1; i < lp_scale.num_notes; i++)`. -/
def stepsBody (s : Scale) (st : StepsState) (i : Nat) : StepsState :=
  let st1 := st.push (s.offset i - st.lastOffset)
  let st2 := { st1 with lastOffset := s.offset i }
  { st2 with scaleSteps := st2.scaleSteps ++ ", " }

/-- The whole loop, started at `i = 1`. -/
def stepsLoop (s : Scale) : StepsState :=
  forLoop (stepsBody s) (s.num_notes - 1) 1 stepsInit

/-- State after the closing `scaleSteps += to_string(12 - lastOffset)`. -/
def stepsFinal (s : Scale) : StepsState :=
  let st := stepsLoop s
  st.push (12 - st.lastOffset)

/-- The intervals listed by `drawBottomPanel`, in order. -/
def scaleIntervals (s : Scale) : List Int := (stepsFinal s).listed

/-- The text shown after `Scale: `. -/
def scaleStepsText (s : Scale) : String := (stepsFinal s).scaleSteps

/-! ## Machine arithmetic -/

/-- The value a two's complement machine gives an `int` computation whose
mathematical result is `n`: the representative of `n` modulo `2^32` in
`[-2^31, 2^31)`. -/
def wrap32 (n : Int) : Int := (n + 2147483648) % 4294967296 - 2147483648

/-- Rounding to the nearest integer, a tie going to the even neighbour. -/
def roundHalfEven (t : ℚ) : Int :=
  if t - ⌊t⌋ < 1 / 2 then ⌊t⌋
  else if 1 / 2 < t - ⌊t⌋ then ⌊t⌋ + 1
  else if ⌊t⌋ % 2 = 0 then ⌊t⌋
  else ⌊t⌋ + 1

/-- The binary exponent of `x`: for `x ≠ 0`, `2 ^ binade x ≤ |x| < 2 ^ (binade x + 1)`. -/
def binade (x : ℚ) : Int := Int.log 2 |x|

/-- The spacing of single-precision numbers around `x`: 24 significant bits. -/
def ulp32 (x : ℚ) : ℚ := 2 ^ (binade x - 23)

/-- The `float` nearest to the real number `x`, a tie going to the even
significand.  The exponent range is not limited; the values met in this
program lie between `2^-32` and `2^38`, inside the normal range. -/
def roundF32 (x : ℚ) : ℚ :=
  if x = 0 then 0 else (roundHalfEven (x / ulp32 x) : ℚ) * ulp32 x

/-- Conversion of an `int` to `float`. -/
def intToFloat (n : Int) : ℚ := roundF32 (n : ℚ)

/-! ## drawBottomPanel: BPM and swing -/

/-- The divisor of the swing display, the integer `2 * lp_sequencer.step_millis`. -/
def swingPairTotal (step_millis : Int) : Int := 2 * step_millis

/-- The value passed to `ImGui::Text("Swing: %.2f%%", ...)`:
`100.0f * (swing_millis + step_millis) / (2 * step_millis)`.  The two fields
are read as `int`; the sum and the double are `int` results, each is converted
to `float`, the product with `100.0f` is rounded, and so is the quotient. -/
def swingShown (swing_millis step_millis : Int) : ℚ :=
  roundF32
    (roundF32 (100 * intToFloat (wrap32 (swing_millis + step_millis)))
      / intToFloat (wrap32 (swingPairTotal step_millis)))

/-- The number printed for `%.2f`, counted in hundredths: the exact value of
the argument rounded to two decimals, a tie going to the even digit. -/
def hundredths (v : ℚ) : Int := roundHalfEven (100 * v)

/-- Two decimal digits, with a leading zero below ten. -/
def twoDigits (k : Nat) : String := if k < 10 then "0" ++ toString k else toString k

/-- The text of `%.2f` for the value `v`. -/
def fixed2 (v : ℚ) : String :=
  (if v < 0 then "-" else "") ++ toString ((hundredths v).natAbs / 100) ++ "."
    ++ twoDigits ((hundredths v).natAbs % 100)

/-- The swing percentage as printed, in hundredths of a percent. -/
def swingHundredths (swing_millis step_millis : Int) : Int :=
  hundredths (swingShown swing_millis step_millis)

/-- The text drawn by `ImGui::Text("Swing: %.2f%%", ...)`. -/
def swingText (swing_millis step_millis : Int) : String :=
  "Swing: " ++ fixed2 (swingShown swing_millis step_millis) ++ "%"

/-- Modelled from the spec: the duration of the `n`-th step of the sequencer
tick, whose code is in the sequencer core and not in `VirtualLppApp.cpp`:
"step durations alternate between `step_millis + swing_millis` and
`step_millis − swing_millis` across successive steps". -/
def stepDuration (step_millis swing_millis : Int) (n : Nat) : Int :=
  if n % 2 = 0 then step_millis + swing_millis else step_millis - swing_millis

/-! ## Scale quantization -/

/-- Modelled from the spec: `quantize(step_index, octave, root_note)`, whose
code is in the sequencer core and not in `VirtualLppApp.cpp`: "dividing by
`num_notes` for octave count and indexing `offsets` for the remainder, then
adding `root_note + 12*octave`".  Division and remainder are those of C (truncating);
a zero divisor or a negative index is a violation of the input contract and
yields `none`. -/
def quantize (s : Scale) (step_index octave root_note : Int) : Option Int :=
  if s.num_notes = 0 then none
  else
    let octaves := Int.tdiv step_index (s.num_notes : Int)
    let degree := Int.tmod step_index (s.num_notes : Int)
    if degree < 0 then none
    else some (root_note + 12 * octave + 12 * octaves + s.offset degree.toNat)

/-! ## resize: window layout -/

/-- An `ImVec2`: two `float` components. -/
structure ImVec2 where
  x : ℚ
  y : ℚ
deriving Repr, DecidableEq

/-- The four panel fields of the application. -/
structure Panels where
  sidePanelPos : ImVec2
  sidePanelSize : ImVec2
  bottomPanelPos : ImVec2
  bottomPanelSize : ImVec2
deriving Repr, DecidableEq

/-- Effect of `resize`: the panel fields and the argument of `lpp.setWidth`. -/
structure Resized where
  panels : Panels
  lppWidth : Int
deriving Repr, DecidableEq

/-- The method `VirtualLppApp::resize` for a window of `w` by `h`: `int`
arithmetic for `lppSize` and the differences, conversion to `float` in the
`ImVec2` constructors. -/
def resize (showGui : Bool) (w h : Int) (old : Panels) : Resized :=
  let lppSize := min w h
  if showGui then
    let lppSize := Int.tdiv (wrap32 (2 * lppSize)) 3
    { panels :=
        { sidePanelPos := ⟨intToFloat lppSize, intToFloat 0⟩
          sidePanelSize := ⟨intToFloat (wrap32 (w - lppSize)), intToFloat lppSize⟩
          bottomPanelPos := ⟨intToFloat 0, intToFloat lppSize⟩
          bottomPanelSize := ⟨intToFloat w, intToFloat (wrap32 (h - lppSize))⟩ }
      lppWidth := lppSize }
  else
    { panels := old, lppWidth := lppSize }

/-- Panel fields before the first `resize`. -/
def zeroPanels : Panels := ⟨⟨0, 0⟩, ⟨0, 0⟩, ⟨0, 0⟩, ⟨0, 0⟩⟩

/-- The pixel `(x, y)` lies in the rectangle at `pos` of extent `size`. -/
def inRect (pos size : ImVec2) (x y : Int) : Prop :=
  pos.x ≤ (x : ℚ) ∧ (x : ℚ) < pos.x + size.x ∧ pos.y ≤ (y : ℚ) ∧ (y : ℚ) < pos.y + size.y

/-- The pixel `(x, y)` lies in the grid square of width `lppWidth` at the origin. -/
def inGrid (r : Resized) (x y : Int) : Prop :=
  inRect ⟨0, 0⟩ ⟨(r.lppWidth : ℚ), (r.lppWidth : ℚ)⟩ x y

/-- The pixel `(x, y)` lies in the side panel. -/
def inSide (r : Resized) (x y : Int) : Prop :=
  inRect r.panels.sidePanelPos r.panels.sidePanelSize x y

/-- The pixel `(x, y)` lies in the bottom panel. -/
def inBottom (r : Resized) (x y : Int) : Prop :=
  inRect r.panels.bottomPanelPos r.panels.bottomPanelSize x y

/-! ## drawSequenceNotes: step colours -/

/-- Constants of the sequencer headers, taken as parameters. -/
structure Consts where
  GRID_SIZE : Nat
  SEQUENCE_LENGTH : Nat
  NTE_SLIDE : Nat
  NTE_SKIP : Nat
deriving Repr, DecidableEq

/-- A step: `note_number`, `velocity` and the flag bits. -/
structure Note where
  note_number : Int
  velocity : Int
  flags : Nat
deriving Repr, DecidableEq

/-- The fields of a sequence read by `drawSequenceNotes`. -/
structure Sequence where
  notes : Nat → Note
  playhead : Int

/-- Modelled from the spec: the helper `flag_is_set`, which is defined in the
sequencer headers and not in `VirtualLppApp.cpp`; flags are "packed as
bitmasks" and the helper tells whether the bit of the flag is set in the
value. -/
def flag_is_set (v f : Nat) : Bool := (v &&& f) != 0

/-- An RGBA colour. -/
structure ImVec4 where
  x : ℚ
  y : ℚ
  z : ℚ
  w : ℚ
deriving DecidableEq

/-- The constant `ImVec4(0.2, 0.2, 0.2, 1)`, the colour of the step under the playhead. -/
def playheadColor : ImVec4 := ⟨0.2, 0.2, 0.2, 1⟩

/-- The constant `ImVec4(0, 0, 0.3, 1)`, the colour of a sliding step. -/
def slideColor : ImVec4 := ⟨0, 0, 0.3, 1⟩

/-- The constant `ImVec4(0, 0.3, 0, 1)`, the colour of a step holding a note. -/
def noteColor : ImVec4 := ⟨0, 0.3, 0, 1⟩

/-- The constant `ImVec4(0.2, 0, 0, 1)`, the colour of an empty step. -/
def emptyColor : ImVec4 := ⟨0.2, 0, 0, 1⟩

/-- The conditional chain assigning `color` in `drawSequenceNotes`. -/
def stepColor (c : Consts) (playhead : Int) (stepI : Nat) (n : Note) : ImVec4 :=
  if playhead = (stepI : Int) then playheadColor
  else if flag_is_set n.flags c.NTE_SLIDE then slideColor
  else if n.note_number > -1 then noteColor
  else emptyColor

/-- One button drawn by `drawSequenceNotes`. -/
structure Cell where
  color : ImVec4
  hoverColor : ImVec4
  label : String
  tooltipVelocity : Int
  tooltipSkip : Bool
deriving DecidableEq

/-- The button of step `stepI`. -/
def stepCell (c : Consts) (s : Sequence) (stepI : Nat) : Cell :=
  let n := s.notes stepI
  let color := stepColor c s.playhead stepI n
  { color := color
    hoverColor := ⟨color.x * 1.1, color.y * 1.1, color.z * 1.1, 1⟩
    label := toString n.note_number
    tooltipVelocity := n.velocity
    tooltipSkip := flag_is_set n.flags c.NTE_SKIP }

/-- The method `VirtualLppApp::drawSequenceNotes`: the buttons drawn, in order. -/
def drawSequenceNotes (c : Consts) (s : Sequence) : List Cell :=
  forLoop (fun cells stepI => cells ++ [stepCell c s stepI]) c.SEQUENCE_LENGTH 0 []

/-- Number of buttons of a row shown in the playhead colour. -/
def playheadCells (cells : List Cell) : Nat :=
  cells.countP (fun cell => decide (cell.color = playheadColor))

/-- Constants used to instantiate the statements. -/
def sampleConsts : Consts :=
  { GRID_SIZE := 8, SEQUENCE_LENGTH := 32, NTE_SLIDE := 1, NTE_SKIP := 2 }

/-- A sequence of empty steps with the playhead on step 5. -/
def sampleSequence : Sequence :=
  { notes := fun _ => { note_number := -1, velocity := 0, flags := 0 }, playhead := 5 }

/-! ## Entry points and the lock `lppMutex` -/

/-- What an entry point does, as far as the shared state is concerned. -/
inductive Action where
  /-- The declaration `lock_guard<mutex> lock(lppMutex);`. -/
  | acquire
  /-- The end of the scope of the `lock_guard`. -/
  | release
  /-- A read or write of `lpp` or of the sequencer globals it drives. -/
  | access (what : String)
  /-- Any other statement. -/
  | other (what : String)
deriving Repr, DecidableEq

/-- Whether every `access` of a trace happens while the lock is held; `held`
tells whether it is held at the start. -/
def guardedFrom : Bool → List Action → Bool
  | _, [] => true
  | _, Action.acquire :: rest => guardedFrom true rest
  | _, Action.release :: rest => guardedFrom false rest
  | held, Action.access _ :: rest => held && guardedFrom held rest
  | held, Action.other _ :: rest => guardedFrom held rest

/-- Lock discipline of an entry point, which starts without the lock. -/
def guarded (trace : List Action) : Bool := guardedFrom false trace

/-- The `k`-fold repetition of a block of statements. -/
def repeatBlock (k : Nat) (block : List Action) : List Action :=
  forLoop (fun trace _ => trace ++ block) k 0 []

/-- The callback given to `lppTimer.start` in `setup`. -/
def timerCallback : List Action :=
  [Action.acquire, Action.access "lpp.update", Action.release]

/-- Trace of `VirtualLppApp::setup`, which runs before the timer thread exists. -/
def setup : List Action :=
  [Action.access "lpp.setWidth", Action.other "lppTimer.start",
   Action.other "ImGui_ImplCinder_Init", Action.other "io.Fonts",
   Action.other "showGui = true", Action.other "sequenceNames",
   Action.other "gl::enableAlphaBlending"]

/-- Trace of `VirtualLppApp::mouseDown`. -/
def mouseDown : List Action :=
  [Action.acquire, Action.access "lpp.mouseDown", Action.release]

/-- Trace of `VirtualLppApp::mouseUp`. -/
def mouseUp : List Action :=
  [Action.acquire, Action.access "lpp.mouseUp", Action.release]

/-- Trace of `VirtualLppApp::mouseDrag`. -/
def mouseDrag : List Action :=
  [Action.acquire, Action.access "lpp.mouseDrag", Action.release]

/-- Trace of `VirtualLppApp::resize`; the panel fields are set only when the GUI is shown. -/
def resizeTrace (showGui : Bool) : List Action :=
  [Action.other "getWindowWidth", Action.other "getWindowHeight", Action.other "min"]
    ++ (if showGui then [Action.other "panel fields"] else [])
    ++ [Action.acquire, Action.access "lpp.setWidth", Action.release,
        Action.other "gl::setMatricesWindow"]

/-- Trace of `VirtualLppApp::drawSequenceNotes`, one block per step; the reads
of the conditional chain and of the tooltip are all listed. -/
def drawSequenceNotesTrace (c : Consts) : List Action :=
  repeatBlock c.SEQUENCE_LENGTH
      [Action.access "s.notes[stepI]", Action.access "s.playhead",
       Action.access "n.flags", Action.access "n.note_number",
       Action.other "ImGui::SmallButton", Action.access "n.velocity",
       Action.other "ImGui::SameLine"]
    ++ [Action.other "ImGui::Dummy"]

/-- Trace of `VirtualLppApp::drawBottomPanel` for a scale of `num_notes` notes. -/
def drawBottomPanelTrace (c : Consts) (num_notes : Nat) : List Action :=
  [Action.other "ImGui::SetNextWindowPos", Action.other "ImGui::SetNextWindowSize",
   Action.other "ImGui::Begin"]
    ++ repeatBlock (num_notes - 1)
        [Action.access "lp_scale.num_notes", Action.access "lp_scale.offsets[i]",
         Action.access "lp_scale.offsets[i]"]
    ++ [Action.access "lp_scale.num_notes",
        Action.access "lp_flags", Action.other "ImGui::Value Armed",
        Action.access "lp_sequencer.step_millis", Action.other "ImGui::Value BPM",
        Action.access "lp_sequencer.swing_millis", Action.access "lp_sequencer.step_millis",
        Action.access "lp_sequencer.step_millis", Action.other "ImGui::Text Swing",
        Action.other "ImGui::Text Scale",
        Action.access "lp_modifiers", Action.other "ImGui::Text Modifiers",
        Action.other "ImGui::Separator"]
    ++ repeatBlock c.GRID_SIZE
        (Action.access "lp_sequencer.sequences[seqI]" :: drawSequenceNotesTrace c)
    ++ [Action.other "ImGui::End"]

/-- Trace of `VirtualLppApp::drawSidePanel` with every tree node closed. -/
def drawSidePanelTrace (c : Consts) : List Action :=
  [Action.other "ImGui::SetNextWindowPos", Action.other "ImGui::SetNextWindowSize",
   Action.other "ImGui::Begin", Action.access "lp_sequencer.master_sequence"]
    ++ repeatBlock c.GRID_SIZE [Action.other "ImGui::TreeNode"]
    ++ [Action.other "ImGui::End"]

/-- Trace of `VirtualLppApp::drawGui`. -/
def drawGui (c : Consts) (num_notes : Nat) : List Action :=
  drawBottomPanelTrace c num_notes ++ drawSidePanelTrace c

/-- Trace of `VirtualLppApp::draw`. -/
def draw (c : Consts) (showGui : Bool) (num_notes : Nat) : List Action :=
  Action.other "gl::setMatricesWindow" :: Action.other "gl::clear"
    :: Action.access "lpp.draw" :: Action.other "ImGui_ImplCinder_NewFrame"
    :: ((if showGui then drawGui c num_notes else []) ++ [Action.other "ImGui::Render"])

/-! ## Facts about the interval loop -/

theorem forLoop_succ {σ : Type} (body : σ → Nat → σ) (n i : Nat) (st : σ) :
    forLoop body (n + 1) i st = body (forLoop body n i st) (i + n) := by
  induction n generalizing i st with
  | zero => simp [forLoop]
  | succ n ih =>
    rw [forLoop, ih (i + 1) (body st i)]
    have e : i + 1 + n = i + (n + 1) := by omega
    rw [e]
    rfl

/-- After `n` rounds the loop has listed the `n` successive differences and
`lastOffset` holds `offsets[n]`. -/
theorem stepsLoop_inv (s : Scale) (h0 : s.offset 0 = 0) (n : Nat) :
    (forLoop (stepsBody s) n 1 stepsInit).listed
        = (List.range n).map (fun k => s.offset (k + 1) - s.offset k)
      ∧ (forLoop (stepsBody s) n 1 stepsInit).lastOffset = s.offset n := by
  induction n with
  | zero => simp [forLoop, stepsInit, h0]
  | succ n ih =>
    obtain ⟨hl, ho⟩ := ih
    rw [forLoop_succ]
    have e : 1 + n = n + 1 := by omega
    constructor
    · simp only [stepsBody, StepsState.push, hl, ho, e, List.range_succ, List.map_append,
        List.map_cons, List.map_nil]
    · simp only [stepsBody, StepsState.push, e]

theorem scaleIntervals_eq (s : Scale) (h0 : s.offset 0 = 0) :
    scaleIntervals s
      = (List.range (s.num_notes - 1)).map (fun k => s.offset (k + 1) - s.offset k)
        ++ [12 - s.offset (s.num_notes - 1)] := by
  obtain ⟨hl, ho⟩ := stepsLoop_inv s h0 (s.num_notes - 1)
  simp only [scaleIntervals, stepsFinal, stepsLoop, StepsState.push, hl, ho]

theorem sum_diffs (f : Nat → Int) (n : Nat) :
    ((List.range n).map (fun k => f (k + 1) - f k)).sum = f n - f 0 := by
  induction n with
  | zero => simp
  | succ n ih =>
    rw [List.range_succ, List.map_append, List.sum_append, ih]
    simp

/-! ## Facts about the step colours -/

theorem drawSequenceNotes_eq (c : Consts) (s : Sequence) :
    drawSequenceNotes c s = (List.range c.SEQUENCE_LENGTH).map (stepCell c s) := by
  unfold drawSequenceNotes
  induction c.SEQUENCE_LENGTH with
  | zero => rfl
  | succ n ih => rw [forLoop_succ, ih, List.range_succ, List.map_append]; simp

theorem slideColor_ne : slideColor ≠ playheadColor := by
  intro h
  have hx := congrArg ImVec4.x h
  simp only [slideColor, playheadColor] at hx
  norm_num at hx

theorem noteColor_ne : noteColor ≠ playheadColor := by
  intro h
  have hx := congrArg ImVec4.x h
  simp only [noteColor, playheadColor] at hx
  norm_num at hx

theorem emptyColor_ne : emptyColor ≠ playheadColor := by
  intro h
  have hy := congrArg ImVec4.y h
  simp only [emptyColor, playheadColor] at hy
  norm_num at hy

theorem noteColor_ne_empty : noteColor ≠ emptyColor := by
  intro h
  have hx := congrArg ImVec4.x h
  simp only [noteColor, emptyColor] at hx
  norm_num at hx

/-- A step has the playhead colour exactly when it is the step under the playhead. -/
theorem stepColor_playhead_iff (c : Consts) (p : Int) (i : Nat) (n : Note) :
    stepColor c p i n = playheadColor ↔ p = (i : Int) := by
  unfold stepColor
  constructor
  · intro h
    by_contra hp
    rw [if_neg hp] at h
    split at h
    · exact slideColor_ne h
    · split at h
      · exact noteColor_ne h
      · exact emptyColor_ne h
  · intro hp
    rw [if_pos hp]

theorem count_playhead (N : Nat) (p : Int) (h0 : 0 ≤ p) (hN : p < (N : Int)) :
    (List.range N).countP (fun i : Nat => decide (p = (i : Int))) = 1 := by
  have hp : p = ((p.toNat : Nat) : Int) := (Int.toNat_of_nonneg h0).symm
  have hfun : (fun i : Nat => decide (p = (i : Int))) = (fun i : Nat => i == p.toNat) := by
    funext i
    by_cases hi : i = p.toNat
    · subst hi
      simp [← hp]
    · have : ¬ p = (i : Int) := by omega
      simp [hi, this]
  rw [hfun]
  have hmem : p.toNat ∈ List.range N := by
    rw [List.mem_range]
    omega
  exact List.count_eq_one_of_mem (List.nodup_range N) hmem

/-- Toggling bits outside a mask leaves the masked value unchanged. -/
theorem xor_and_of_disjoint (f k m : Nat) (h : k &&& m = 0) : (f ^^^ k) &&& m = f &&& m := by
  apply Nat.eq_of_testBit_eq
  intro j
  have hj := congrArg (fun v => Nat.testBit v j) h
  simp only [Nat.testBit_and, Nat.zero_testBit] at hj
  simp only [Nat.testBit_and, Nat.testBit_xor]
  cases hf : f.testBit j <;> cases hk : k.testBit j <;> cases hm : m.testBit j <;>
    simp_all

/-! ## Facts about traces -/

theorem acquire_not_mem_repeatBlock (k : Nat) (block : List Action)
    (h : Action.acquire ∉ block) : Action.acquire ∉ repeatBlock k block := by
  unfold repeatBlock
  induction k with
  | zero => simp [forLoop]
  | succ k ih =>
    rw [forLoop_succ]
    simp only [List.mem_append, not_or]
    exact ⟨ih, h⟩

/-- An access that no acquisition precedes breaks the lock discipline. -/
theorem guardedFrom_access_unlocked (pre post : List Action) (what : String)
    (h : Action.acquire ∉ pre) :
    guardedFrom false (pre ++ Action.access what :: post) = false := by
  induction pre with
  | nil => simp [guardedFrom]
  | cons a pre ih =>
    have ha : a ≠ Action.acquire := fun e => h (by simp [e])
    have hpre : Action.acquire ∉ pre := fun e => h (by simp [e])
    cases a with
    | acquire => exact absurd rfl ha
    | release => simpa [guardedFrom] using ih hpre
    | access w => simp [guardedFrom]
    | other w => simpa [guardedFrom] using ih hpre

theorem drawBottomPanelTrace_unguarded (c : Consts) (num_notes : Nat) (post : List Action) :
    guardedFrom false (drawBottomPanelTrace c num_notes ++ post) = false := by
  unfold drawBottomPanelTrace
  simp only [List.append_assoc, List.cons_append]
  rw [← List.append_assoc]
  apply guardedFrom_access_unlocked
  simp only [List.mem_append, not_or]
  refine ⟨by decide, ?_⟩
  apply acquire_not_mem_repeatBlock
  decide

/-! ## Claims -/

/-- C2: for a scale with `num_notes ≥ 1` whose first offset is 0 the interval
list of `drawBottomPanel` has exactly `num_notes` entries; entry `k`
(`1 ≤ k < num_notes`, counted from 1) is `offsets[k] - offsets[k-1]`; the final
entry is `12 - offsets[num_notes-1]`; for the major scale the list is
2, 2, 1, 2, 2, 2, 1 and that is the text shown. -/
theorem C2_scale_intervals (s : Scale) (h1 : 1 ≤ s.num_notes) (h0 : s.offset 0 = 0) :
    (scaleIntervals s).length = s.num_notes
      ∧ (∀ k, 1 ≤ k → k < s.num_notes →
          (scaleIntervals s)[k - 1]? = some (s.offset k - s.offset (k - 1)))
      ∧ (scaleIntervals s)[s.num_notes - 1]? = some (12 - s.offset (s.num_notes - 1))
      ∧ scaleIntervals majorScale = [2, 2, 1, 2, 2, 2, 1]
      ∧ scaleStepsText majorScale = "2, 2, 1, 2, 2, 2, 1" := by
  rw [scaleIntervals_eq s h0]
  refine ⟨?_, ?_, ?_, by decide, by decide⟩
  · simp; omega
  · intro k hk1 hk2
    have hk : k - 1 < s.num_notes - 1 := by omega
    rw [List.getElem?_append_left (by simpa using hk)]
    have e : k - 1 + 1 = k := by omega
    simp [List.getElem?_map, List.getElem?_range hk, e]
  · rw [List.getElem?_append_right (by simp)]
    simp

/-- Witness of C2 at the major scale. -/
theorem C2_scale_intervals_witness :
    (scaleIntervals majorScale).length = 7
      ∧ (scaleIntervals majorScale)[6]? = some (12 - majorScale.offset 6) :=
  have h := C2_scale_intervals majorScale (by decide) (by decide)
  ⟨h.1, h.2.2.1⟩

/-- C3: when the offsets start at 0, increase strictly and the last one is
below 12, every interval listed by `drawBottomPanel` is positive and the
intervals add up to 12. -/
theorem C3_intervals_positive_sum (s : Scale) (h0 : s.offset 0 = 0)
    (hinc : ∀ i, i + 1 < s.num_notes → s.offset i < s.offset (i + 1))
    (hlast : s.offset (s.num_notes - 1) < 12) :
    (∀ v ∈ scaleIntervals s, 0 < v) ∧ (scaleIntervals s).sum = 12 := by
  rw [scaleIntervals_eq s h0]
  constructor
  · intro v hv
    rw [List.mem_append] at hv
    rcases hv with hv | hv
    · rw [List.mem_map] at hv
      obtain ⟨k, hk, rfl⟩ := hv
      rw [List.mem_range] at hk
      have := hinc k (by omega)
      omega
    · simp at hv
      omega
  · rw [List.sum_append, sum_diffs]
    simp [h0]

/-- Witness of C3 at the major scale. -/
theorem C3_intervals_positive_sum_witness :
    (∀ v ∈ scaleIntervals majorScale, 0 < v) ∧ (scaleIntervals majorScale).sum = 12 :=
  C3_intervals_positive_sum majorScale (by decide)
    (by
      intro i hi
      have hi7 : i + 1 < 7 := hi
      have hi6 : i < 6 := by omega
      interval_cases i <;> decide)
    (by decide)

/-- C5: for `step_millis > 0` and `|swing_millis| < step_millis` successive step
durations alternate between `step_millis + swing_millis` and
`step_millis - swing_millis`, both positive, and any two consecutive ones add
up to `2 * step_millis`, the divisor of the swing display; for 125 and 20 the
durations are 145 and 105, of mean 125. -/
theorem C5_swing_pair_total (step_millis swing_millis : Int) (hs : 0 < step_millis)
    (hsw : |swing_millis| < step_millis) (n : Nat) :
    ((stepDuration step_millis swing_millis n = step_millis + swing_millis
          ∧ stepDuration step_millis swing_millis (n + 1) = step_millis - swing_millis)
        ∨ (stepDuration step_millis swing_millis n = step_millis - swing_millis
          ∧ stepDuration step_millis swing_millis (n + 1) = step_millis + swing_millis))
      ∧ stepDuration step_millis swing_millis n + stepDuration step_millis swing_millis (n + 1)
          = 2 * step_millis
      ∧ stepDuration step_millis swing_millis n + stepDuration step_millis swing_millis (n + 1)
          = swingPairTotal step_millis
      ∧ 0 < stepDuration step_millis swing_millis n
      ∧ stepDuration 125 20 0 = 145 ∧ stepDuration 125 20 1 = 105
      ∧ (stepDuration 125 20 0 + stepDuration 125 20 1) / 2 = 125 := by
  have hb := abs_lt.mp hsw
  have hpar : n % 2 = 0 ∨ n % 2 = 1 := by omega
  have hstep : 0 < step_millis := hs
  refine ⟨?_, ?_, ?_, ?_, by decide, by decide, by decide⟩
  · rcases hpar with h | h
    · left
      have h1 : (n + 1) % 2 ≠ 0 := by omega
      simp [stepDuration, h, h1]
    · right
      have h0 : n % 2 ≠ 0 := by omega
      have h1 : (n + 1) % 2 = 0 := by omega
      simp [stepDuration, h0, h1]
  · rcases hpar with h | h
    · have h1 : (n + 1) % 2 ≠ 0 := by omega
      simp only [stepDuration, h, h1, if_true, if_false]
      ring
    · have h0 : n % 2 ≠ 0 := by omega
      have h1 : (n + 1) % 2 = 0 := by omega
      simp only [stepDuration, h0, h1, if_true, if_false]
      ring
  · unfold swingPairTotal
    rcases hpar with h | h
    · have h1 : (n + 1) % 2 ≠ 0 := by omega
      simp only [stepDuration, h, h1, if_true, if_false]
      ring
    · have h0 : n % 2 ≠ 0 := by omega
      have h1 : (n + 1) % 2 = 0 := by omega
      simp only [stepDuration, h0, h1, if_true, if_false]
      ring
  · unfold stepDuration
    split <;> omega

/-- Witness of C5 at `step_millis = 125`, `swing_millis = 20`, step 0. -/
theorem C5_swing_pair_total_witness :
    stepDuration 125 20 0 + stepDuration 125 20 (0 + 1) = 2 * 125 :=
  (C5_swing_pair_total 125 20 (by decide) (by decide) 0).2.1

/-- C6: for a scale with `num_notes ≥ 1` and a `step_index ≥ 0`, `quantize`
returns `root_note + 12*octave + 12*(step_index / num_notes)
+ offsets[step_index mod num_notes]`; for the major scale
`quantize(7, 0, 0)` is 12. -/
theorem C6_quantize_formula (s : Scale) (step_index octave root_note : Int)
    (hn : 1 ≤ s.num_notes) (hs : 0 ≤ step_index) :
    quantize s step_index octave root_note
        = some (root_note + 12 * octave + 12 * (step_index / (s.num_notes : Int))
            + s.offset (step_index % (s.num_notes : Int)).toNat)
      ∧ quantize majorScale 7 0 0 = some 12 := by
  refine ⟨?_, by decide⟩
  have hn0 : s.num_notes ≠ 0 := by omega
  have hnn : (0 : Int) ≤ (s.num_notes : Int) := Int.ofNat_nonneg _
  have hd : Int.tdiv step_index (s.num_notes : Int) = step_index / (s.num_notes : Int) :=
    Int.tdiv_eq_ediv hs hnn
  have hm : Int.tmod step_index (s.num_notes : Int) = step_index % (s.num_notes : Int) :=
    Int.tmod_eq_emod hs hnn
  have hpos : ¬ step_index % (s.num_notes : Int) < 0 := by
    have : (s.num_notes : Int) ≠ 0 := by exact_mod_cast hn0
    have := Int.emod_nonneg step_index this
    omega
  simp only [quantize, hn0, if_false, hd, hm, hpos]

/-- Witness of C6 at the major scale, degree 7. -/
theorem C6_quantize_formula_witness :
    quantize majorScale 7 0 0
      = some (0 + 12 * 0 + 12 * (7 / ((majorScale.num_notes : Nat) : Int))
          + majorScale.offset (7 % ((majorScale.num_notes : Nat) : Int)).toNat) :=
  (C6_quantize_formula majorScale 7 0 0 (by decide) (by decide)).1

/-- C7: when `0 ≤ playhead < SEQUENCE_LENGTH`, `drawSequenceNotes` draws
`SEQUENCE_LENGTH` cells, exactly one of them in the playhead colour
`(0.2, 0.2, 0.2)`, and that one is the cell at index `playhead`, whatever the
notes and flags of the steps are. -/
theorem C7_one_playhead_cell (c : Consts) (s : Sequence)
    (hp : 0 ≤ s.playhead ∧ s.playhead < (c.SEQUENCE_LENGTH : Int)) :
    (drawSequenceNotes c s).length = c.SEQUENCE_LENGTH
      ∧ playheadCells (drawSequenceNotes c s) = 1
      ∧ (∀ (i : Nat) (cell : Cell), (drawSequenceNotes c s)[i]? = some cell →
          (cell.color = playheadColor ↔ (i : Int) = s.playhead))
      ∧ playheadColor = ⟨0.2, 0.2, 0.2, 1⟩ := by
  rw [drawSequenceNotes_eq]
  refine ⟨by simp, ?_, ?_, rfl⟩
  · unfold playheadCells
    rw [List.countP_map]
    have hfun : ((fun cell : Cell => decide (cell.color = playheadColor)) ∘ stepCell c s)
        = (fun i : Nat => decide (s.playhead = (i : Int))) := by
      funext i
      simp only [Function.comp, stepCell]
      exact decide_eq_decide.mpr (stepColor_playhead_iff c s.playhead i (s.notes i))
    rw [hfun]
    exact count_playhead c.SEQUENCE_LENGTH s.playhead hp.1 hp.2
  · intro i cell hcell
    rw [List.getElem?_map] at hcell
    cases hr : (List.range c.SEQUENCE_LENGTH)[i]? with
    | none => rw [hr] at hcell; simp at hcell
    | some j =>
      rw [hr] at hcell
      have hj : j = i := by
        rw [List.getElem?_eq_some_iff] at hr
        obtain ⟨hlt, hget⟩ := hr
        rw [← hget]
        simp
      subst hj
      simp only [Option.map, Option.some.injEq] at hcell
      subst hcell
      simp only [stepCell]
      rw [stepColor_playhead_iff]
      exact eq_comm

/-- Witness of C7 on the sample sequence. -/
theorem C7_one_playhead_cell_witness :
    (drawSequenceNotes sampleConsts sampleSequence).length = 32
      ∧ playheadCells (drawSequenceNotes sampleConsts sampleSequence) = 1 :=
  have h := C7_one_playhead_cell sampleConsts sampleSequence (by decide)
  ⟨h.1, h.2.1⟩

/-- C8: the colour of a step cell follows a strict precedence: the playhead
colour when the step index equals the playhead; otherwise the slide colour
when the slide flag is set, whatever the note number; otherwise the has-note
colour exactly when `note_number > -1`, that is `note_number ≥ 0`; otherwise
the empty colour.  The colour depends on the note only through its number and
its slide flag: the velocity never changes it, nor does toggling a skip bit
that is not part of the slide mask. -/
theorem C8_color_precedence (c : Consts) (p : Int) (i : Nat) (n : Note) :
    (p = (i : Int) → stepColor c p i n = playheadColor)
      ∧ (p ≠ (i : Int) → flag_is_set n.flags c.NTE_SLIDE = true →
          stepColor c p i n = slideColor)
      ∧ (p ≠ (i : Int) → flag_is_set n.flags c.NTE_SLIDE = false → n.note_number > -1 →
          stepColor c p i n = noteColor)
      ∧ (p ≠ (i : Int) → flag_is_set n.flags c.NTE_SLIDE = false → ¬ n.note_number > -1 →
          stepColor c p i n = emptyColor)
      ∧ (p ≠ (i : Int) → flag_is_set n.flags c.NTE_SLIDE = false →
          (stepColor c p i n = noteColor ↔ 0 ≤ n.note_number))
      ∧ (∀ n2 : Note, n2.note_number = n.note_number →
          flag_is_set n2.flags c.NTE_SLIDE = flag_is_set n.flags c.NTE_SLIDE →
          stepColor c p i n2 = stepColor c p i n)
      ∧ (∀ v : Int, stepColor c p i { n with velocity := v } = stepColor c p i n)
      ∧ (c.NTE_SKIP &&& c.NTE_SLIDE = 0 →
          stepColor c p i { n with flags := n.flags ^^^ c.NTE_SKIP } = stepColor c p i n) := by
  refine ⟨?_, ?_, ?_, ?_, ?_, ?_, ?_, ?_⟩
  · intro hp
    simp [stepColor, hp]
  · intro hp hf
    simp [stepColor, hp, hf]
  · intro hp hf hn
    simp [stepColor, hp, hf, hn]
  · intro hp hf hn
    simp [stepColor, hp, hf, hn]
  · intro hp hf
    by_cases hn : n.note_number > -1
    · have h0 : 0 ≤ n.note_number := by omega
      simp [stepColor, hp, hf, hn, h0]
    · have h0 : ¬ 0 ≤ n.note_number := by omega
      have hc : stepColor c p i n = emptyColor := by simp [stepColor, hp, hf, hn]
      rw [hc]
      constructor
      · intro h
        exact absurd h.symm noteColor_ne_empty
      · intro h
        exact absurd h h0
  · intro n2 hnum hflag
    simp only [stepColor, hnum, hflag]
  · intro v
    rfl
  · intro hdis
    have hx : flag_is_set (n.flags ^^^ c.NTE_SKIP) c.NTE_SLIDE = flag_is_set n.flags c.NTE_SLIDE := by
      unfold flag_is_set
      rw [xor_and_of_disjoint n.flags c.NTE_SKIP c.NTE_SLIDE hdis]
    simp only [stepColor, hx]

/-- Witness of C8: an empty step with the slide flag, away from the playhead,
is drawn in the slide colour. -/
theorem C8_color_precedence_witness :
    stepColor sampleConsts 5 3 { note_number := -1, velocity := 0, flags := 1 } = slideColor :=
  (C8_color_precedence sampleConsts 5 3 { note_number := -1, velocity := 0, flags := 1 }).2.1
    (by decide) (by decide)

/-- C1: the timer callback, `mouseDown`, `mouseUp`, `mouseDrag` and `resize`
touch the shared state only between acquiring and releasing `lppMutex`, but
`draw` never acquires it: `lpp.draw()` and every read made by the panel
helpers (the scale, the flags, the tempo, the modifiers, the sequences)
happen outside the lock, for every setting of `showGui`, every scale size and
every grid size.  The first write of `setup`, made before the timer thread
exists, is outside the lock as well. -/
theorem C1_draw_outside_lock :
    guarded timerCallback = true
      ∧ guarded mouseDown = true
      ∧ guarded mouseUp = true
      ∧ guarded mouseDrag = true
      ∧ (∀ showGui : Bool, guarded (resizeTrace showGui) = true)
      ∧ (∀ (c : Consts) (showGui : Bool) (num_notes : Nat),
          guarded (draw c showGui num_notes) = false)
      ∧ (∀ (c : Consts) (num_notes : Nat), guarded (drawGui c num_notes) = false)
      ∧ guarded (draw sampleConsts true 7) = false
      ∧ guarded setup = false := by
  have hdraw : ∀ (c : Consts) (showGui : Bool) (num_notes : Nat),
      guarded (draw c showGui num_notes) = false := by
    intro c showGui num_notes
    simp [guarded, draw, guardedFrom]
  refine ⟨by decide, by decide, by decide, by decide, ?_, hdraw, ?_,
    hdraw sampleConsts true 7, by decide⟩
  · intro showGui
    cases showGui <;> decide
  · intro c num_notes
    exact drawBottomPanelTrace_unguarded c num_notes (drawSidePanelTrace c)

/-! ## Facts about rounding -/

theorem roundHalfEven_near (t : ℚ) : |((roundHalfEven t : Int) : ℚ) - t| ≤ 1 / 2 := by
  have h1 := Int.floor_le t
  have h2 := Int.lt_floor_add_one t
  unfold roundHalfEven
  rw [abs_le]
  split_ifs <;> push_cast <;> constructor <;> linarith

theorem roundHalfEven_intCast (n : Int) : roundHalfEven (n : ℚ) = n := by
  unfold roundHalfEven
  simp

theorem roundHalfEven_unique (t : ℚ) (n : Int) (h1 : (n : ℚ) - 1 / 2 < t)
    (h2 : t < (n : ℚ) + 1 / 2) : roundHalfEven t = n := by
  have h := abs_le.mp (roundHalfEven_near t)
  have hlt : ((roundHalfEven t : Int) : ℚ) < ((n + 1 : Int) : ℚ) := by
    push_cast
    linarith [h.2]
  have hgt : ((n - 1 : Int) : ℚ) < ((roundHalfEven t : Int) : ℚ) := by
    push_cast
    linarith [h.1]
  have hlt2 : roundHalfEven t < n + 1 := by exact_mod_cast hlt
  have hgt2 : n - 1 < roundHalfEven t := by exact_mod_cast hgt
  omega

theorem roundHalfEven_tie_even (n : Int) (hn : n % 2 = 0) :
    roundHalfEven ((n : ℚ) + 1 / 2) = n := by
  have hf : ⌊(n : ℚ) + 1 / 2⌋ = n := by
    rw [Int.floor_eq_iff]
    constructor <;> linarith
  unfold roundHalfEven
  rw [hf]
  have e : (n : ℚ) + 1 / 2 - (n : ℚ) = 1 / 2 := by ring
  rw [e]
  simp [hn]

theorem binade_bounds (x : ℚ) (hx : x ≠ 0) :
    (2 : ℚ) ^ binade x ≤ |x| ∧ |x| < (2 : ℚ) ^ (binade x + 1) := by
  have hpos : 0 < |x| := abs_pos.mpr hx
  have h1 := Int.zpow_log_le_self (b := 2) (by norm_num) hpos
  have h2 := Int.lt_zpow_succ_log_self (b := 2) (by norm_num) |x|
  simp only [Nat.cast_ofNat] at h1 h2
  exact ⟨h1, h2⟩

theorem binade_eq (x : ℚ) (e : Int) (h1 : (2 : ℚ) ^ e ≤ |x|) (h2 : |x| < (2 : ℚ) ^ (e + 1)) :
    binade x = e := by
  have hpos : 0 < |x| := lt_of_lt_of_le (by positivity) h1
  have ha : e ≤ Int.log 2 |x| := by
    rw [← Int.zpow_le_iff_le_log (by norm_num) hpos]
    simpa using h1
  have hb : Int.log 2 |x| < e + 1 := by
    rw [← Int.lt_zpow_iff_log_lt (by norm_num) hpos]
    simpa using h2
  unfold binade
  omega

theorem ulp32_pos (x : ℚ) : 0 < ulp32 x := by
  unfold ulp32
  positivity

/-- Single-precision rounding has relative error at most `2^-24`. -/
theorem roundF32_near (x : ℚ) (hx : 0 < x) : |roundF32 x - x| ≤ x / 16777216 := by
  have hne : x ≠ 0 := ne_of_gt hx
  have hu := ulp32_pos x
  have hb := (binade_bounds x hne).1
  rw [abs_of_pos hx] at hb
  have hux : ulp32 x * 8388608 ≤ x := by
    have e : ulp32 x * 8388608 = (2 : ℚ) ^ binade x := by
      unfold ulp32
      rw [zpow_sub₀ (by norm_num : (2 : ℚ) ≠ 0)]
      norm_num
    rw [e]
    exact hb
  have hr := roundHalfEven_near (x / ulp32 x)
  have hd : roundF32 x - x = (((roundHalfEven (x / ulp32 x) : Int) : ℚ) - x / ulp32 x) * ulp32 x := by
    unfold roundF32
    rw [if_neg hne]
    field_simp
  rw [hd, abs_mul, abs_of_pos hu]
  calc |((roundHalfEven (x / ulp32 x) : Int) : ℚ) - x / ulp32 x| * ulp32 x
      ≤ 1 / 2 * ulp32 x := by
        exact mul_le_mul_of_nonneg_right hr (le_of_lt hu)
    _ ≤ x / 16777216 := by linarith

theorem roundF32_eval (x : ℚ) (e m : Int) (h1 : (2 : ℚ) ^ e ≤ |x|) (h2 : |x| < (2 : ℚ) ^ (e + 1))
    (hm : roundHalfEven (x / (2 : ℚ) ^ (e - 23)) = m) :
    roundF32 x = (m : ℚ) * (2 : ℚ) ^ (e - 23) := by
  have hne : x ≠ 0 := by
    intro h
    rw [h, abs_zero] at h1
    have : (0 : ℚ) < (2 : ℚ) ^ e := by positivity
    linarith
  unfold roundF32 ulp32
  rw [if_neg hne, binade_eq x e h1 h2, hm]

theorem roundF32_small_int (n : Int) (h0 : 0 < n) (h1 : n < 16777216) :
    roundF32 (n : ℚ) = (n : ℚ) := by
  have hq0 : (0 : ℚ) < (n : ℚ) := by exact_mod_cast h0
  have hne : (n : ℚ) ≠ 0 := ne_of_gt hq0
  have habs : |(n : ℚ)| = (n : ℚ) := abs_of_pos hq0
  have hlo : 0 ≤ binade (n : ℚ) := by
    unfold binade
    rw [← Int.zpow_le_iff_le_log (by norm_num) (abs_pos.mpr hne), habs]
    have : (1 : ℚ) ≤ (n : ℚ) := by exact_mod_cast h0
    simpa using this
  have hhi : binade (n : ℚ) < 24 := by
    unfold binade
    rw [← Int.lt_zpow_iff_log_lt (by norm_num) (abs_pos.mpr hne), habs]
    have : (n : ℚ) < 16777216 := by exact_mod_cast h1
    norm_num
    exact this
  obtain ⟨k, hk⟩ : ∃ k : Nat, binade (n : ℚ) - 23 = -(k : Int) :=
    ⟨(23 - binade (n : ℚ)).toNat, by omega⟩
  have hu : ulp32 (n : ℚ) = ((2 : ℚ) ^ k)⁻¹ := by
    unfold ulp32
    rw [hk, zpow_neg, zpow_natCast]
  have hp : (0 : ℚ) < (2 : ℚ) ^ k := by positivity
  have hdiv : (n : ℚ) / ulp32 (n : ℚ) = ((n * 2 ^ k : Int) : ℚ) := by
    rw [hu]
    push_cast
    field_simp
  unfold roundF32
  rw [if_neg hne, hdiv, roundHalfEven_intCast, hu]
  push_cast
  field_simp

/-- Every `int` from 0 to `2^24` converts to `float` without rounding. -/
theorem intToFloat_exact (n : Int) (h0 : 0 ≤ n) (h1 : n ≤ 16777216) :
    intToFloat n = (n : ℚ) := by
  unfold intToFloat
  rcases (lt_or_eq_of_le h0 : 0 < n ∨ 0 = n) with hpos | hzero
  · rcases (lt_or_eq_of_le h1 : n < 16777216 ∨ n = 16777216) with hlt | heq
    · exact roundF32_small_int n hpos hlt
    · subst heq
      have hm : roundHalfEven (((16777216 : Int) : ℚ) / (2 : ℚ) ^ ((24 : Int) - 23))
          = 8388608 := by
        have e : ((16777216 : Int) : ℚ) / (2 : ℚ) ^ ((24 : Int) - 23) = ((8388608 : Int) : ℚ) := by
          norm_num
        rw [e, roundHalfEven_intCast]
      rw [roundF32_eval _ 24 8388608 (by norm_num) (by norm_num) hm]
      norm_num
  · subst hzero
    simp [roundF32]

theorem wrap32_of_range (n : Int) (h0 : -2147483648 ≤ n) (h1 : n < 2147483648) :
    wrap32 n = n := by
  unfold wrap32
  omega

theorem roundF32_16777217 : roundF32 (((16777217 : Int) : ℚ)) = 16777216 := by
  have hm : roundHalfEven (((16777217 : Int) : ℚ) / (2 : ℚ) ^ ((24 : Int) - 23)) = 8388608 := by
    have e : ((16777217 : Int) : ℚ) / (2 : ℚ) ^ ((24 : Int) - 23)
        = ((8388608 : Int) : ℚ) + 1 / 2 := by norm_num
    rw [e]
    exact roundHalfEven_tie_even 8388608 (by decide)
  rw [roundF32_eval _ 24 8388608 (by norm_num) (by norm_num) hm]
  norm_num

/-- C9 as stated fails: in a window of `2^24 + 1` by `2^24 + 1` the width stored
in `bottomPanelSize` is `2^24`, not `w`; in a window of `2^30` by `2^30` the
product `2 * lppSize` wraps and `lppSize` is negative. -/
theorem C9_resize_layout_counterexample :
    (resize true 16777217 16777217 zeroPanels).panels.bottomPanelSize.x = 16777216
      ∧ (resize true 16777217 16777217 zeroPanels).panels.bottomPanelSize.x
          ≠ ((16777217 : Int) : ℚ)
      ∧ (resize true 1073741824 1073741824 zeroPanels).lppWidth = -715827882
      ∧ ¬ (0 ≤ (resize true 1073741824 1073741824 zeroPanels).lppWidth) := by
  have hx : (resize true 16777217 16777217 zeroPanels).panels.bottomPanelSize.x = 16777216 := by
    simp only [resize, if_true, intToFloat]
    exact roundF32_16777217
  have hl : (resize true 1073741824 1073741824 zeroPanels).lppWidth = -715827882 := by
    decide
  refine ⟨hx, ?_, hl, ?_⟩
  · rw [hx]
    norm_num
  · rw [hl]
    decide

/-- C9 (amended): in `resize` with the GUI shown and `0 ≤ w ≤ 2^24`,
`0 ≤ h ≤ 2^24`, the grid width is `(2 * min(w, h)) / 3`, it lies between 0 and
`min(w, h)`, the side panel is stored at `(lppSize, 0)` with size
`(w - lppSize, lppSize)` and the bottom panel at `(0, lppSize)` with size
`(w, h - lppSize)`, all without rounding, both sizes are non-negative; grid
square, side panel and bottom panel are pairwise disjoint, together they are
exactly the `w` by `h` window, and their areas add up to `w * h`. -/
theorem C9_resize_layout (w h : Int) (hw : 0 ≤ w) (hw2 : w ≤ 16777216) (hh : 0 ≤ h)
    (hh2 : h ≤ 16777216) (old : Panels) :
    (resize true w h old).lppWidth = (2 * min w h) / 3
      ∧ 0 ≤ (resize true w h old).lppWidth
      ∧ (resize true w h old).lppWidth ≤ min w h
      ∧ (resize true w h old).panels.sidePanelPos
          = ⟨((resize true w h old).lppWidth : ℚ), 0⟩
      ∧ (resize true w h old).panels.sidePanelSize
          = ⟨((w - (resize true w h old).lppWidth : Int) : ℚ),
              ((resize true w h old).lppWidth : ℚ)⟩
      ∧ (resize true w h old).panels.bottomPanelPos
          = ⟨0, ((resize true w h old).lppWidth : ℚ)⟩
      ∧ (resize true w h old).panels.bottomPanelSize
          = ⟨(w : ℚ), ((h - (resize true w h old).lppWidth : Int) : ℚ)⟩
      ∧ 0 ≤ (resize true w h old).panels.sidePanelSize.x
      ∧ 0 ≤ (resize true w h old).panels.sidePanelSize.y
      ∧ 0 ≤ (resize true w h old).panels.bottomPanelSize.x
      ∧ 0 ≤ (resize true w h old).panels.bottomPanelSize.y
      ∧ (∀ x y : Int,
          ¬ (inGrid (resize true w h old) x y ∧ inSide (resize true w h old) x y)
          ∧ ¬ (inGrid (resize true w h old) x y ∧ inBottom (resize true w h old) x y)
          ∧ ¬ (inSide (resize true w h old) x y ∧ inBottom (resize true w h old) x y))
      ∧ (∀ x y : Int,
          (0 ≤ x ∧ x < w ∧ 0 ≤ y ∧ y < h)
            ↔ (inGrid (resize true w h old) x y ∨ inSide (resize true w h old) x y
                ∨ inBottom (resize true w h old) x y))
      ∧ ((resize true w h old).lppWidth : ℚ) * ((resize true w h old).lppWidth : ℚ)
          + (resize true w h old).panels.sidePanelSize.x
              * (resize true w h old).panels.sidePanelSize.y
          + (resize true w h old).panels.bottomPanelSize.x
              * (resize true w h old).panels.bottomPanelSize.y
          = (w : ℚ) * (h : ℚ) := by
  have hm0 : 0 ≤ min w h := le_min hw hh
  have hmw : min w h ≤ w := min_le_left w h
  have hmh : min w h ≤ h := min_le_right w h
  have hwr : wrap32 (2 * min w h) = 2 * min w h := wrap32_of_range _ (by omega) (by omega)
  have hd : Int.tdiv (2 * min w h) 3 = (2 * min w h) / 3 :=
    Int.tdiv_eq_ediv (by omega) (by decide)
  have hl0 : 0 ≤ (2 * min w h) / 3 := by omega
  have hlm : (2 * min w h) / 3 ≤ min w h := by omega
  have hr : resize true w h old
      = { panels :=
            { sidePanelPos := ⟨(((2 * min w h) / 3 : Int) : ℚ), 0⟩
              sidePanelSize := ⟨((w - (2 * min w h) / 3 : Int) : ℚ),
                (((2 * min w h) / 3 : Int) : ℚ)⟩
              bottomPanelPos := ⟨0, (((2 * min w h) / 3 : Int) : ℚ)⟩
              bottomPanelSize := ⟨(w : ℚ), ((h - (2 * min w h) / 3 : Int) : ℚ)⟩ }
          lppWidth := (2 * min w h) / 3 } := by
    simp only [resize, if_true, hwr, hd]
    rw [wrap32_of_range (w - (2 * min w h) / 3) (by omega) (by omega),
      wrap32_of_range (h - (2 * min w h) / 3) (by omega) (by omega),
      intToFloat_exact ((2 * min w h) / 3) hl0 (by omega),
      intToFloat_exact (w - (2 * min w h) / 3) (by omega) (by omega),
      intToFloat_exact (h - (2 * min w h) / 3) (by omega) (by omega),
      intToFloat_exact w hw hw2, intToFloat_exact 0 (by decide) (by decide)]
    simp
  rw [hr]
  generalize min w h = m at hm0 hmw hmh hl0 hlm
  generalize (2 * m) / 3 = l at hl0 hlm
  have hwl : 0 ≤ w - l := by omega
  have hhl : 0 ≤ h - l := by omega
  refine ⟨rfl, hl0, hlm, rfl, rfl, rfl, rfl, ?_, ?_, ?_, ?_, ?_, ?_, ?_⟩
  · show (0 : ℚ) ≤ ((w - l : Int) : ℚ)
    exact_mod_cast hwl
  · show (0 : ℚ) ≤ (l : ℚ)
    exact_mod_cast hl0
  · show (0 : ℚ) ≤ (w : ℚ)
    exact_mod_cast hw
  · show (0 : ℚ) ≤ ((h - l : Int) : ℚ)
    exact_mod_cast hhl
  · intro x y
    simp only [inGrid, inSide, inBottom, inRect]
    norm_cast
    omega
  · intro x y
    simp only [inGrid, inSide, inBottom, inRect]
    norm_cast
    omega
  · push_cast
    ring

/-- Witness of C9 (amended) for the default 800 by 800 window. -/
theorem C9_resize_layout_witness :
    (resize true 800 800 zeroPanels).lppWidth = (2 * min 800 800) / 3
      ∧ (resize true 800 800 zeroPanels).panels.bottomPanelSize
          = ⟨((800 : Int) : ℚ), ((800 - (resize true 800 800 zeroPanels).lppWidth : Int) : ℚ)⟩ :=
  have h := C9_resize_layout 800 800 (by decide) (by decide) (by decide) (by decide) zeroPanels
  ⟨h.1, h.2.2.2.2.2.2.1⟩

/-- Up to `step_millis = 83886` no `int` wraps and the conversions and the
product are exact, so the value shown is the exact share rounded once. -/
theorem swingShown_eq (swing_millis step_millis : Int) (hs : 0 < step_millis)
    (hB : step_millis ≤ 83886) (hsw : |swing_millis| < step_millis) :
    swingShown swing_millis step_millis
      = roundF32 (100 * ((swing_millis + step_millis : Int) : ℚ)
          / ((2 * step_millis : Int) : ℚ)) := by
  have hb := abs_lt.mp hsw
  unfold swingShown swingPairTotal
  rw [wrap32_of_range (swing_millis + step_millis) (by omega) (by omega),
    wrap32_of_range (2 * step_millis) (by omega) (by omega),
    intToFloat_exact (swing_millis + step_millis) (by omega) (by omega),
    intToFloat_exact (2 * step_millis) (by omega) (by omega)]
  have e : (100 : ℚ) * ((swing_millis + step_millis : Int) : ℚ)
      = ((100 * (swing_millis + step_millis) : Int) : ℚ) := by push_cast; ring
  have hex := intToFloat_exact (100 * (swing_millis + step_millis)) (by omega) (by omega)
  unfold intToFloat at hex
  rw [e, hex]

theorem swingShown_20_125 : swingShown 20 125 = 58 := by
  rw [swingShown_eq 20 125 (by decide) (by decide) (by decide)]
  have e : (100 : ℚ) * (((20 : Int) + 125 : Int) : ℚ) / ((2 * 125 : Int) : ℚ)
      = ((58 : Int) : ℚ) := by norm_num
  rw [e]
  have h := intToFloat_exact 58 (by decide) (by decide)
  unfold intToFloat at h
  rw [h]
  norm_num

theorem roundF32_50 : roundF32 (50 : ℚ) = 50 := by
  have h := intToFloat_exact 50 (by decide) (by decide)
  unfold intToFloat at h
  rw [show (50 : ℚ) = ((50 : Int) : ℚ) by norm_num, h]

theorem roundF32_100 : roundF32 (100 : ℚ) = 100 := by
  have h := intToFloat_exact 100 (by decide) (by decide)
  unfold intToFloat at h
  rw [show (100 : ℚ) = ((100 : Int) : ℚ) by norm_num, h]

theorem fixed2_58 : fixed2 58 = "58.00" := by
  unfold fixed2 hundredths
  have e : (100 : ℚ) * 58 = ((5800 : Int) : ℚ) := by norm_num
  rw [e, roundHalfEven_intCast, if_neg (by norm_num)]
  decide

theorem swingText_20_125 : swingText 20 125 = "Swing: 58.00%" := by
  unfold swingText
  rw [swingShown_20_125, fixed2_58]
  decide

/-- With `swing_millis = 1` and `step_millis = 30000000` the sum `30000001`
is rounded to `30000000` by the conversion and the quotient is exactly 50. -/
theorem swingShown_1_30000000 : swingShown 1 30000000 = 50 := by
  have ha : intToFloat 30000001 = 30000000 := by
    unfold intToFloat
    have hm : roundHalfEven (((30000001 : Int) : ℚ) / (2 : ℚ) ^ ((24 : Int) - 23))
        = 15000000 := by
      have e : ((30000001 : Int) : ℚ) / (2 : ℚ) ^ ((24 : Int) - 23)
          = ((15000000 : Int) : ℚ) + 1 / 2 := by norm_num
      rw [e]
      exact roundHalfEven_tie_even 15000000 (by decide)
    rw [roundF32_eval _ 24 15000000 (by norm_num) (by norm_num) hm]
    norm_num
  have hp : roundF32 (100 * (30000000 : ℚ)) = 3000000000 := by
    have hm : roundHalfEven ((100 * (30000000 : ℚ)) / (2 : ℚ) ^ ((31 : Int) - 23))
        = 11718750 := by
      have e : (100 * (30000000 : ℚ)) / (2 : ℚ) ^ ((31 : Int) - 23)
          = ((11718750 : Int) : ℚ) := by norm_num
      rw [e, roundHalfEven_intCast]
    rw [roundF32_eval _ 31 11718750 (by norm_num) (by norm_num) hm]
    norm_num
  have hb : intToFloat 60000000 = 60000000 := by
    unfold intToFloat
    have hm : roundHalfEven (((60000000 : Int) : ℚ) / (2 : ℚ) ^ ((25 : Int) - 23))
        = 15000000 := by
      have e : ((60000000 : Int) : ℚ) / (2 : ℚ) ^ ((25 : Int) - 23)
          = ((15000000 : Int) : ℚ) := by norm_num
      rw [e, roundHalfEven_intCast]
    rw [roundF32_eval _ 25 15000000 (by norm_num) (by norm_num) hm]
    norm_num
  have hwa : wrap32 (1 + 30000000) = 30000001 := by decide
  have hwb : wrap32 (swingPairTotal 30000000) = 60000000 := by decide
  unfold swingShown
  rw [hwa, hwb, ha, hp, hb]
  have e : (3000000000 : ℚ) / 60000000 = 50 := by norm_num
  rw [e]
  exact roundF32_50

/-- With `swing_millis = 29999999` and `step_millis = 30000000` the sum
`59999999` is rounded to `60000000` and the quotient is exactly 100. -/
theorem swingShown_29999999_30000000 : swingShown 29999999 30000000 = 100 := by
  have ha : intToFloat 59999999 = 60000000 := by
    unfold intToFloat
    have hm : roundHalfEven (((59999999 : Int) : ℚ) / (2 : ℚ) ^ ((25 : Int) - 23))
        = 15000000 := by
      apply roundHalfEven_unique <;> norm_num
    rw [roundF32_eval _ 25 15000000 (by norm_num) (by norm_num) hm]
    norm_num
  have hp : roundF32 (100 * (60000000 : ℚ)) = 6000000000 := by
    have hm : roundHalfEven ((100 * (60000000 : ℚ)) / (2 : ℚ) ^ ((32 : Int) - 23))
        = 11718750 := by
      have e : (100 * (60000000 : ℚ)) / (2 : ℚ) ^ ((32 : Int) - 23)
          = ((11718750 : Int) : ℚ) := by norm_num
      rw [e, roundHalfEven_intCast]
    rw [roundF32_eval _ 32 11718750 (by norm_num) (by norm_num) hm]
    norm_num
  have hb : intToFloat 60000000 = 60000000 := by
    unfold intToFloat
    have hm : roundHalfEven (((60000000 : Int) : ℚ) / (2 : ℚ) ^ ((25 : Int) - 23))
        = 15000000 := by
      have e : ((60000000 : Int) : ℚ) / (2 : ℚ) ^ ((25 : Int) - 23)
          = ((15000000 : Int) : ℚ) := by norm_num
      rw [e, roundHalfEven_intCast]
    rw [roundF32_eval _ 25 15000000 (by norm_num) (by norm_num) hm]
    norm_num
  have hwa : wrap32 (29999999 + 30000000) = 59999999 := by decide
  have hwb : wrap32 (swingPairTotal 30000000) = 60000000 := by decide
  unfold swingShown
  rw [hwa, hwb, ha, hp, hb]
  have e : (6000000000 : ℚ) / 60000000 = 100 := by norm_num
  rw [e]
  exact roundF32_100

/-- With `swing_millis = 9997` and `step_millis = 9998` the value shown is
`13106545 / 131072`, about `99.9950027`. -/
theorem swingShown_9997_9998 : swingShown 9997 9998 = 13106545 / 131072 := by
  rw [swingShown_eq 9997 9998 (by decide) (by decide) (by decide)]
  have hm : roundHalfEven ((100 * (((9997 : Int) + 9998 : Int) : ℚ) / ((2 * 9998 : Int) : ℚ))
      / (2 : ℚ) ^ ((6 : Int) - 23)) = 13106545 := by
    apply roundHalfEven_unique <;> norm_num
  rw [roundF32_eval _ 6 13106545 (by norm_num [abs_of_pos]) (by norm_num [abs_of_pos]) hm]
  norm_num

theorem swingText_9997_9998 : swingText 9997 9998 = "Swing: 100.00%" := by
  have hh : hundredths (13106545 / 131072) = 10000 := by
    unfold hundredths
    apply roundHalfEven_unique <;> norm_num
  unfold swingText fixed2
  rw [swingShown_9997_9998, hh, if_neg (by norm_num)]
  decide

/-- C10 (amended): for `0 < step_millis ≤ 9980` and
`|swing_millis| < step_millis` the `float` handed to the swing display is the
single-precision rounding of the share
`100 * (step + swing) / ((step + swing) + (step - swing))` of a two-step pair
taken by the step of length `step + swing`, within relative error `2^-24`; it
is strictly between 0 and 100 and it is 50 exactly when `swing_millis = 0`;
the two-decimal number printed is strictly between 0.00 and 100.00 and is
50.00 exactly when `swing_millis = 0`; for 125 and 20 the value is 58 and the
text is `Swing: 58.00%`. -/
theorem C10_swing_percentage (swing_millis step_millis : Int) (hs : 0 < step_millis)
    (hB : step_millis ≤ 9980) (hsw : |swing_millis| < step_millis) :
    swingShown swing_millis step_millis
        = roundF32 (100 * ((step_millis + swing_millis : Int) : ℚ)
            / (((step_millis + swing_millis) + (step_millis - swing_millis) : Int) : ℚ))
      ∧ |swingShown swing_millis step_millis
            - 100 * ((step_millis + swing_millis : Int) : ℚ)
                / (((step_millis + swing_millis) + (step_millis - swing_millis) : Int) : ℚ)|
          ≤ 100 * ((step_millis + swing_millis : Int) : ℚ)
                / (((step_millis + swing_millis) + (step_millis - swing_millis) : Int) : ℚ)
              / 16777216
      ∧ 0 < swingShown swing_millis step_millis
      ∧ swingShown swing_millis step_millis < 100
      ∧ (swingShown swing_millis step_millis = 50 ↔ swing_millis = 0)
      ∧ 0 < swingHundredths swing_millis step_millis
      ∧ swingHundredths swing_millis step_millis < 10000
      ∧ (swingHundredths swing_millis step_millis = 5000 ↔ swing_millis = 0)
      ∧ swingShown 20 125 = 58
      ∧ swingText 20 125 = "Swing: 58.00%" := by
  have hb := abs_lt.mp hsw
  have hq : (0 : ℚ) < (step_millis : ℚ) := by exact_mod_cast hs
  have hq2 : (step_millis : ℚ) ≤ 9980 := by exact_mod_cast hB
  have h1 : (1 : ℚ) - (step_millis : ℚ) ≤ (swing_millis : ℚ) := by
    have : 1 - step_millis ≤ swing_millis := by omega
    exact_mod_cast this
  have h2 : (swing_millis : ℚ) ≤ (step_millis : ℚ) - 1 := by
    have : swing_millis ≤ step_millis - 1 := by omega
    exact_mod_cast this
  -- the exact share and its distance from the end points
  have hsame : (100 : ℚ) * ((step_millis + swing_millis : Int) : ℚ)
        / (((step_millis + swing_millis) + (step_millis - swing_millis) : Int) : ℚ)
      = 100 * ((swing_millis + step_millis : Int) : ℚ) / ((2 * step_millis : Int) : ℚ) := by
    push_cast
    congr 1
    · ring
    · ring
  have hx : (100 : ℚ) * ((swing_millis + step_millis : Int) : ℚ) / ((2 * step_millis : Int) : ℚ)
      = 50 + 50 * ((swing_millis : ℚ) / (step_millis : ℚ)) := by
    push_cast
    field_simp
    ring
  have hval := swingShown_eq swing_millis step_millis hs (by omega) hsw
  rw [hsame]
  rw [hx] at hval
  rw [hx]
  generalize hr : (swing_millis : ℚ) / (step_millis : ℚ) = r at hval
  have hrlo : -1 + 1 / 9980 ≤ r := by
    rw [← hr, le_div_iff₀ hq]
    linarith
  have hrhi : r ≤ 1 - 1 / 9980 := by
    rw [← hr, div_le_iff₀ hq]
    linarith
  have hxpos : (0 : ℚ) < 50 + 50 * r := by linarith
  have hnear := abs_le.mp (roundF32_near (50 + 50 * r) hxpos)
  rw [← hval] at hnear
  have hrpos : 0 < swing_millis → 1 / 9980 ≤ r := by
    intro h
    have : (1 : ℚ) ≤ (swing_millis : ℚ) := by exact_mod_cast h
    rw [← hr, le_div_iff₀ hq]
    linarith
  have hrneg : swing_millis < 0 → r ≤ -(1 / 9980) := by
    intro h
    have : (swing_millis : ℚ) ≤ -1 := by
      have : swing_millis ≤ -1 := by omega
      exact_mod_cast this
    rw [← hr, div_le_iff₀ hq]
    linarith
  have hrzero : swing_millis = 0 → r = 0 := by
    intro h
    rw [← hr, h]
    simp
  have h50 := roundF32_50
  have hround := abs_le.mp (roundHalfEven_near (100 * swingShown swing_millis step_millis))
  refine ⟨hval, ?_, ?_, ?_, ?_, ?_, ?_, ?_, swingShown_20_125, ?_⟩
  · rw [abs_le]
    exact hnear
  · linarith [hnear.1]
  · linarith [hnear.2]
  · constructor
    · intro hv
      by_contra hne
      rcases lt_or_gt_of_ne hne with hlt | hgt
      · have := hrneg hlt
        linarith [hnear.2]
      · have := hrpos hgt
        linarith [hnear.1]
    · intro h0
      rw [hval, hrzero h0]
      norm_num
      exact h50
  · have hlt : (0 : ℚ) < ((swingHundredths swing_millis step_millis : Int) : ℚ) := by
      unfold swingHundredths hundredths
      linarith [hround.1, hnear.1]
    exact_mod_cast hlt
  · have hlt : ((swingHundredths swing_millis step_millis : Int) : ℚ) < ((10000 : Int) : ℚ) := by
      unfold swingHundredths hundredths
      push_cast
      linarith [hround.2, hnear.2]
    exact_mod_cast hlt
  · constructor
    · intro hv
      have hvq : ((swingHundredths swing_millis step_millis : Int) : ℚ) = 5000 := by
        rw [hv]
        norm_num
      unfold swingHundredths hundredths at hvq
      by_contra hne
      rcases lt_or_gt_of_ne hne with hlt | hgt
      · have := hrneg hlt
        linarith [hround.2, hnear.2]
      · have := hrpos hgt
        linarith [hround.1, hnear.1]
    · intro h0
      unfold swingHundredths hundredths
      rw [hval, hrzero h0]
      have e : (100 : ℚ) * roundF32 (50 + 50 * 0) = ((5000 : Int) : ℚ) := by
        norm_num
        rw [h50]
        norm_num
      rw [e, roundHalfEven_intCast]
  · exact swingText_20_125

/-- Witness of C10 (amended) at `step_millis = 125`, `swing_millis = 20`. -/
theorem C10_swing_percentage_witness :
    0 < swingShown 20 125 ∧ swingShown 20 125 < 100 ∧ swingHundredths 20 125 < 10000 :=
  have h := C10_swing_percentage 20 125 (by decide) (by decide) (by decide)
  ⟨h.2.2.1, h.2.2.2.1, h.2.2.2.2.2.2.1⟩

/-- C10 as stated fails on the program: with `swing_millis = 1` and
`step_millis = 30000000` the value shown is exactly 50 although the swing is
not zero; with `swing_millis = 29999999` and `step_millis = 30000000` it is
exactly 100; with `swing_millis = 9997` and `step_millis = 9998` the text
drawn is `Swing: 100.00%`. -/
theorem C10_swing_percentage_counterexample :
    (0 < (30000000 : Int) ∧ |(1 : Int)| < 30000000
        ∧ ¬ (swingShown 1 30000000 = 50 ↔ (1 : Int) = 0))
      ∧ (|(29999999 : Int)| < 30000000 ∧ ¬ (swingShown 29999999 30000000 < 100))
      ∧ (0 < (9998 : Int) ∧ |(9997 : Int)| < 9998
        ∧ swingText 9997 9998 = "Swing: 100.00%") := by
  refine ⟨⟨by decide, by decide, ?_⟩, ⟨by decide, ?_⟩, ⟨by decide, by decide, ?_⟩⟩
  · intro h
    exact absurd (h.mp swingShown_1_30000000) (by decide)
  · rw [swingShown_29999999_30000000]
    norm_num
  · exact swingText_9997_9998

end VirtualLppApp
